import Mathlib

set_option autoImplicit false

namespace HashFS

/-!
Shallow embedding of the HashFS vault engine: the worker
`src/src/hashfs-worker.js` (handlers.init / load / save / delete / rename)
together with the chain manager and crypto utilities of its `crypto.js`
module (the scrypt/BLAKE3 "v6" variant: `cryptoUtils.deriveKeys`,
`createChainManager.getChain` / `saveChain`).

Cryptographic and codec primitives (BLAKE3, Ed25519, AES-256-GCM, DEFLATE,
JSON serialisation) are modelled symbolically: they are fields of a `Prims`
record, and the facts a proof needs about them (a signature produced by
`sign` passes `verify`; `inflate` inverts `deflate`) are explicit
hypotheses.  AES-GCM is authenticated encryption, so a stored payload is
either the honest encryption of some plaintext (constructor `enc`, which
decrypts to exactly that plaintext) or a ciphertext that was altered after
encryption (constructor `tampered`, whose decryption fails the GCM tag
check).  JSON serialise/parse round-trips are the identity on chains.

The engine's LRU chain cache is not modelled: `getChain` always reads the
`chains` object store (the cache-miss path of the source).  `load` is
modelled with its default `validate = false`; the full-chain validation
path is out of scope of the claims.  The sorted file-summary list returned
alongside results (`getFileList`) is likewise omitted from result values,
as is the IndexedDB health-check/recovery machinery of `init`.
-/

/-- Byte strings, one natural number (0..255) per byte. -/
abbrev Bytes := List Nat

/-- UTF-8 encoding of one scalar value. -/
def utf8EncodeChar (c : Char) : Bytes :=
  let n := c.toNat
  if n < 128 then [n]
  else if n < 2048 then [192 + n / 64, 128 + n % 64]
  else if n < 65536 then [224 + n / 4096, 128 + n / 64 % 64, 128 + n % 64]
  else [240 + n / 262144, 128 + n / 4096 % 64, 128 + n / 64 % 64, 128 + n % 64]

/-- UTF-8 encoding of a string (JS `TextEncoder.encode`). -/
def utf8Encode (s : String) : Bytes :=
  s.data.foldr (fun c acc => utf8EncodeChar c ++ acc) []

/-- One version entry of a chain (`chain.versions[i]` in the source). -/
structure VersionEntry where
  version : Nat
  hash : String
  sig : String
  key : String
  size : Nat
  ts : Nat
deriving DecidableEq, Repr

/-- Pruning bookkeeping of a chain (`chain.pruned`). -/
structure Pruned where
  count : Nat
  oldestKept : Nat
deriving DecidableEq, Repr

/-- A parsed chain object.  `chainHash`/`chainSig` are optional because
legacy chains may lack them; the save path always writes them. -/
structure Chain where
  versions : List VersionEntry
  pruned : Pruned
  chainHash : Option String
  chainSig : Option String
deriving DecidableEq, Repr

/-- Symbolic crypto/codec primitives.
`hash` is hex-rendered BLAKE3 (`cryptoUtils.hash`); `sign`/`verify` are the
Ed25519 closures of the derived key bundle; `deflate`/`inflate` the fflate
codec (`inflate` is fallible); `jsonEnc` is `JSON.stringify` on chains. -/
structure Prims where
  hash : Bytes → String
  sign : String → String
  verify : String → String → Bool
  deflate : Bytes → Bytes
  inflate : Bytes → Option Bytes
  jsonEnc : Chain → String

/-- A stored `files/*` payload: the honest AES-GCM encryption of the
compressed content bytes, or a ciphertext altered after encryption. -/
inductive Blob where
  | enc (compressed : Bytes)
  | tampered
deriving DecidableEq, Repr

/-- AES-GCM decryption of a content blob: an honest ciphertext decrypts to
the bytes that were encrypted, a tampered one fails the tag check. -/
def decryptBlob : Blob → Option Bytes
  | .enc b => some b
  | .tampered => none

/-- A stored `chains/*` payload: the honest encryption of
`deflate(JSON(chain))` with the signature field that `saveChain` attaches
(which may have been stripped, hence `Option`), or an altered ciphertext. -/
inductive StoredChain where
  | enc (chain : Chain) (sig : Option String)
  | tampered
deriving DecidableEq, Repr

/-- One file record of the metadata index (`metadata.files[name]`). -/
structure FileMeta where
  mime : String
  chainId : String
  headVersion : Nat
  lastModified : Nat
  lastSize : Nat
  lastCompressedSize : Nat
  activeKey : Option String
deriving DecidableEq, Repr

/-- First-match association-list lookup (JS object property read). -/
def alookup {α : Type} : List (String × α) → String → Option α
  | [], _ => none
  | p :: rest, k => if p.1 = k then some p.2 else alookup rest k

/-- Association-list write (JS object property assignment: replace in
place when the key exists, append otherwise). -/
def aput {α : Type} : List (String × α) → String → α → List (String × α)
  | [], k, v => [(k, v)]
  | p :: rest, k, v => if p.1 = k then (k, v) :: rest else p :: aput rest k v

/-- Association-list delete (JS `delete obj[k]` / object-store delete). -/
def aerase {α : Type} : List (String × α) → String → List (String × α)
  | [], _ => []
  | p :: rest, k => if p.1 = k then aerase rest k else p :: aerase rest k

/-- Engine state: the auth flag, the in-memory metadata index, the three
relevant object stores.  `metaStore` is the decrypted view of the
persisted `meta/index` document (`none` when never written). -/
structure State where
  auth : Bool
  filesMeta : List (String × FileMeta)
  filesStore : List (String × Blob)
  chainsStore : List (String × StoredChain)
  metaStore : Option (List (String × FileMeta))
deriving DecidableEq, Repr

/-- `saveMetadata`: rewrite the whole encrypted index document from the
current in-memory metadata. -/
def persistMeta (st : State) : State :=
  { st with metaStore := some st.filesMeta }

/-- The fallback chain value used whenever the chain blob is absent or any
step of its verification fails: `{versions: [], pruned: {count: 0,
oldestKept: 0}}`. -/
def emptyChain : Chain :=
  { versions := [], pruned := { count := 0, oldestKept := 0 },
    chainHash := none, chainSig := none }

/-- The hash the chain-blob signature covers: BLAKE3 of the compressed
(pre-encryption) bytes of the serialised chain. -/
def chainSigPayloadHash (P : Prims) (c : Chain) : String :=
  P.hash (P.deflate (utf8Encode (P.jsonEnc c)))

/-- `createChainManager.getChain` on a cache miss, applied to the stored
payload: absent blob yields the empty chain; otherwise decrypt, inflate,
require the attached `sig` and verify it over the hash of the decrypted
compressed bytes, then parse.  Every failure is caught and degrades to the
empty chain (the source's catch-all). -/
def getChainStored (P : Prims) : Option StoredChain → Chain
  | none => emptyChain
  | some .tampered => emptyChain
  | some (.enc c sigOpt) =>
    match P.inflate (P.deflate (utf8Encode (P.jsonEnc c))) with
    | none => emptyChain
    | some _ =>
      match sigOpt with
      | none => emptyChain
      | some sg => if P.verify (chainSigPayloadHash P c) sg then c else emptyChain

/-- `chainManager.getChain chainId` against the `chains` store. -/
def getChain (P : Prims) (st : State) (chainId : String) : Chain :=
  getChainStored P (alookup st.chainsStore chainId)

/-- `chainManager.saveChain`: serialise, deflate, sign the hash of the
compressed bytes, encrypt, attach the signature, write under `chainId`. -/
def saveChain (P : Prims) (st : State) (chainId : String) (c : Chain) : State :=
  { st with chainsStore := aput st.chainsStore chainId (.enc c (some (P.sign (chainSigPayloadHash P c)))) }

/-- `computeChainHash` of the worker: BLAKE3 of the empty input for an
empty list, otherwise BLAKE3 of the UTF-8 encoding of the concatenation of
the version hash hex strings (`versions.map(v => v.hash).join('')`). -/
def computeChainHash (P : Prims) (versions : List VersionEntry) : String :=
  if versions.isEmpty then P.hash []
  else P.hash (utf8Encode (String.join (versions.map (fun v => v.hash))))

/-- Error taxonomy of the worker, one constructor per throw site reachable
from the modelled operations (the source throws `Error` with a message;
the constructor names follow the messages). -/
inductive Err where
  | notAuthenticated
  | versionNotFound (version : Option Nat)
  | fileCorrupted (filename : String) (version : Option Nat)
  | decryptFailure
  | inflateFailure
  | hashMismatch
  | sigInvalid
  | invalidRename
  | fileNotFound
deriving DecidableEq, Repr

/-- The three success shapes `handlers.load` returns. -/
inductive LoadResult where
  | empty (bytes : Bytes) (mime : String)
  | recovered (bytes : Bytes) (version : Nat) (mime : String) (currentVersion : Nat)
  | ok (bytes : Bytes) (mime : String) (size : Nat) (version : Nat)
      (currentVersion : Nat) (minVersion maxVersion : Nat)
deriving DecidableEq, Repr

/-- The two success shapes `handlers.save` returns. -/
inductive SaveResult where
  | unchanged
  | saved (version : Nat)
deriving DecidableEq, Repr

/-- `v?.version || 0` on an optional version entry. -/
def verOrZero : Option VersionEntry → Nat
  | some e => e.version
  | none => 0

/-- The candidate list `recoverFromPreviousVersion` walks: indices
`length-2` down to `0` of the chain's versions, i.e. all entries before
the head, most recent first.  An entry with a falsy (empty) key is
skipped, as is one whose blob is absent or fails to decrypt or inflate;
the first surviving entry is returned with its inflated content. -/
def tryRecover (P : Prims) (st : State) : List VersionEntry → Option (VersionEntry × Bytes)
  | [] => none
  | v :: rest =>
    if v.key = "" then tryRecover P st rest
    else
      match alookup st.filesStore v.key with
      | none => tryRecover P st rest
      | some blob =>
        match decryptBlob blob with
        | none => tryRecover P st rest
        | some compressed =>
          match P.inflate compressed with
          | none => tryRecover P st rest
          | some inflated => some (v, inflated)

/-- `recoverFromPreviousVersion(meta, chain)`: nothing to do without a
chain id or with fewer than two versions; otherwise walk the entries
before the head backwards and, on success, return the file record updated
to the recovered entry (`headVersion`, `activeKey`, `lastSize`) together
with the inflated bytes and the recovered version number. -/
def recoverFromPreviousVersion (P : Prims) (st : State) (meta : FileMeta) (chain : Chain) :
    Option (FileMeta × Bytes × Nat) :=
  if meta.chainId = "" ∨ chain.versions.length < 2 then none
  else
    match tryRecover P st chain.versions.dropLast.reverse with
    | none => none
    | some (v, inflated) =>
      some ({ meta with headVersion := v.version, activeKey := some v.key, lastSize := inflated.length }, inflated, v.version)

/-- `handlers.load(filename, version)` with the default `validate = false`.
Returns the successor state (metadata may be rewritten on the recovery and
deletion paths) and the result or error. -/
def load (P : Prims) (st : State) (filename : String) (version : Option Nat) :
    State × Except Err LoadResult :=
  if st.auth = false then (st, .error .notAuthenticated) else
  match alookup st.filesMeta filename with
  | none => (st, .ok (.empty [] "text/markdown"))
  | some meta =>
    match meta.activeKey with
    | none => (st, .ok (.empty [] "text/markdown"))
    | some _ =>
      let chain := getChain P st meta.chainId
      let target? := match version with
        | none => chain.versions.getLast?
        | some v => chain.versions.find? (fun e => e.version == v)
      match target? with
      | none => (st, .error (.versionNotFound version))
      | some target =>
        match alookup st.filesStore target.key with
        | none =>
          match version with
          | some v => (st, .error (.fileCorrupted filename (some v)))
          | none =>
            match recoverFromPreviousVersion P st meta chain with
            | some (meta2, bytes2, ver2) =>
              let st2 := persistMeta { st with filesMeta := aput st.filesMeta filename meta2 }
              (st2, .ok (.recovered bytes2 ver2 meta2.mime meta2.headVersion))
            | none =>
              let st2 := persistMeta { st with filesMeta := aerase st.filesMeta filename }
              (st2, .error (.fileCorrupted filename none))
        | some blob =>
          match decryptBlob blob with
          | none => (st, .error .decryptFailure)
          | some compressed =>
            match P.inflate compressed with
            | none => (st, .error .inflateFailure)
            | some inflated =>
              let h := P.hash inflated
              if h ≠ target.hash then (st, .error .hashMismatch)
              else if P.verify h target.sig = false then (st, .error .sigInvalid)
              else
                (st, .ok (.ok inflated meta.mime inflated.length target.version
                  meta.headVersion (verOrZero chain.versions.head?)
                  (verOrZero chain.versions.getLast?)))

/-- The fresh file record `handlers.save` creates for an unknown filename. -/
def mkNewFileMeta (mime chainId : String) (size now : Nat) : FileMeta :=
  { mime := mime, chainId := chainId, headVersion := 0, lastModified := now,
    lastSize := size, lastCompressedSize := 0, activeKey := none }

/-- The record `handlers.save` works on: the existing one, or the freshly
created one for a new filename. -/
def saveMeta0 (st : State) (filename mime chainId : String) (size now : Nat) : FileMeta :=
  match alookup st.filesMeta filename with
  | some m => m
  | none => mkNewFileMeta mime chainId size now

/-- The state after `handlers.save` has initialised metadata for a new
filename (unchanged when the record already exists). -/
def saveState0 (st : State) (filename mime chainId : String) (size now : Nat) : State :=
  match alookup st.filesMeta filename with
  | some _ => st
  | none => { st with filesMeta := aput st.filesMeta filename (mkNewFileMeta mime chainId size now) }

/-- The updated file record transaction A of `handlers.save` writes:
new MIME, bumped head version, statistics, and the fresh blob key. -/
def savedMeta (P : Prims) (meta : FileMeta) (mime : String) (bytes : Bytes)
    (freshKey : String) (now : Nat) : FileMeta :=
  { mime := mime, chainId := meta.chainId, headVersion := meta.headVersion + 1,
    lastModified := now, lastSize := bytes.length,
    lastCompressedSize := (P.deflate bytes).length, activeKey := some freshKey }

/-- The version entry `handlers.save` appends to the chain. -/
def savedEntry (P : Prims) (meta : FileMeta) (bytes : Bytes) (freshKey : String)
    (now : Nat) : VersionEntry :=
  { version := meta.headVersion + 1, hash := P.hash bytes,
    sig := P.sign (P.hash bytes), key := freshKey, size := bytes.length, ts := now }

/-- The chain after append, front pruning down to the version limit
(incrementing `pruned.count` once per dropped entry, setting `oldestKept`
to the first retained entry when any remain), and recomputation and
re-signing of the chain hash. -/
def savedChain (P : Prims) (c2 : Chain) (entry : VersionEntry) (versionLimit : Nat) : Chain :=
  let pushed := c2.versions ++ [entry]
  let dropCount := pushed.length - versionLimit
  let kept := pushed.drop dropCount
  { versions := kept,
    pruned := { count := c2.pruned.count + dropCount,
                oldestKept := match kept.head? with
                  | some e => e.version
                  | none => c2.pruned.oldestKept },
    chainHash := some (computeChainHash P kept),
    chainSig := some (P.sign (computeChainHash P kept)) }

/-- The blob keys of the entries pruned off the front, skipping falsy
(empty) keys, deleted in the post-save cleanup transaction. -/
def droppedKeys (c2 : Chain) (entry : VersionEntry) (versionLimit : Nat) : List String :=
  let pushed := c2.versions ++ [entry]
  (((pushed.take (pushed.length - versionLimit)).map (fun e => e.key)).filter (fun k => k ≠ ""))

/-- The commit path of `handlers.save`: sign, allocate the new blob key,
compress, encrypt; transaction A writes the ciphertext and the updated
record and rewrites the metadata index; then append the version entry to
the chain, prune, recompute and re-sign the chain hash, save the chain,
and finally delete the dropped blobs. -/
def saveCommit (P : Prims) (st1 : State) (filename : String) (bytes : Bytes) (mime : String)
    (versionLimit : Nat) (freshKey : String) (now : Nat) (meta : FileMeta) :
    State × Except Err SaveResult :=
  let st2 := persistMeta { st1 with
      filesStore := aput st1.filesStore freshKey (.enc (P.deflate bytes)),
      filesMeta := aput st1.filesMeta filename (savedMeta P meta mime bytes freshKey now) }
  let chain2 := getChain P st2 meta.chainId
  let entry := savedEntry P meta bytes freshKey now
  let chain3 := savedChain P chain2 entry versionLimit
  let st3 := saveChain P st2 meta.chainId chain3
  let st4 := { st3 with filesStore := (droppedKeys chain2 entry versionLimit).foldl (fun fs k => aerase fs k) st3.filesStore }
  (st4, .ok (.saved (meta.headVersion + 1)))

/-- The body of `handlers.save` once the record is in place: fetch the
chain; when the last entry's hash equals the new content hash, return
unchanged (rewriting metadata only when the MIME differs); otherwise
commit a new version. -/
def saveBody (P : Prims) (st1 : State) (filename : String) (bytes : Bytes) (mime : String)
    (versionLimit : Nat) (freshKey : String) (now : Nat) (meta : FileMeta) :
    State × Except Err SaveResult :=
  if ((getChain P st1 meta.chainId).versions.getLast?).map (fun e => e.hash) = some (P.hash bytes) then
    if meta.mime = mime then (st1, .ok .unchanged)
    else
      (persistMeta { st1 with filesMeta := aput st1.filesMeta filename { meta with mime := mime } },
       .ok .unchanged)
  else saveCommit P st1 filename bytes mime versionLimit freshKey now meta

/-- `handlers.save(filename, {bytes, mime}, {versionLimit})`.  The fresh
chain id and blob key and the clock are passed explicitly in place of the
random generator and `Date.now()`. -/
def save (P : Prims) (st : State) (filename : String) (bytes : Bytes) (mime : String)
    (versionLimit : Nat) (freshChainId freshKey : String) (now : Nat) :
    State × Except Err SaveResult :=
  if st.auth = false then (st, .error .notAuthenticated)
  else
    saveBody P (saveState0 st filename mime freshChainId bytes.length now)
      filename bytes mime versionLimit freshKey now
      (saveMeta0 st filename mime freshChainId bytes.length now)

/-- `handlers.delete(filename)`: success without touching anything when
the record is absent; otherwise collect the chain's blob keys and the
active key, delete them with the chain blob and the record in one
transaction, and rewrite metadata.  The returned flag is the source's
`success: true`. -/
def deleteFile (P : Prims) (st : State) (filename : String) : State × Except Err Bool :=
  if st.auth = false then (st, .error .notAuthenticated) else
  match alookup st.filesMeta filename with
  | none => (st, .ok true)
  | some meta =>
    let chainKeys := if meta.chainId = "" then []
      else ((getChain P st meta.chainId).versions.map (fun e => e.key)).filter (fun k => ¬ k = "")
    let keysToDelete := chainKeys ++ (match meta.activeKey with
      | some k => [k]
      | none => [])
    let st2 := { st with
      filesStore := keysToDelete.foldl (fun fs k => aerase fs k) st.filesStore,
      chainsStore := if meta.chainId = "" then st.chainsStore else aerase st.chainsStore meta.chainId,
      filesMeta := aerase st.filesMeta filename }
    (persistMeta st2, .ok true)

/-- `handlers.rename(oldName, newName)`: reject when unauthenticated, the
new name is empty, or the new name is already present in the index; then
reject when the old name is absent; otherwise move the record (appended
under the new name, removed under the old) and rewrite metadata. -/
def rename (st : State) (oldName newName : String) : State × Except Err Bool :=
  if st.auth = false ∨ newName = "" ∨ (alookup st.filesMeta newName).isSome then
    (st, .error .invalidRename)
  else
    match alookup st.filesMeta oldName with
    | none => (st, .error .fileNotFound)
    | some meta =>
      (persistMeta { st with filesMeta := aerase (aput st.filesMeta newName meta) oldName },
       .ok true)

/-- Lower-case hex digit of a value below 16. -/
def hexDigit (n : Nat) : Char :=
  if n < 10 then Char.ofNat (48 + n) else Char.ofNat (87 + n)

/-- Hex rendering of a byte string (noble's `bytesToHex`). -/
def bytesToHex (bs : Bytes) : String :=
  String.mk (bs.foldr (fun b acc => hexDigit (b / 16 % 16) :: hexDigit (b % 16) :: acc) [])

/-- Numeric value of a hex digit character (0 for anything else). -/
def hexVal (c : Char) : Nat :=
  if 48 ≤ c.toNat ∧ c.toNat ≤ 57 then c.toNat - 48
  else if 97 ≤ c.toNat ∧ c.toNat ≤ 102 then c.toNat - 87
  else if 65 ≤ c.toNat ∧ c.toNat ≤ 70 then c.toNat - 55
  else 0

/-- Decode consecutive hex-digit pairs into bytes. -/
def hexPairsToBytes : List Char → Bytes
  | a :: b :: rest => (16 * hexVal a + hexVal b) :: hexPairsToBytes rest
  | _ => []

/-- Hex string to bytes (noble's `hexToBytes`). -/
def hexToBytes (s : String) : Bytes :=
  hexPairsToBytes s.data

/-- Symbolic primitives of `cryptoUtils.deriveKeys`: Unicode NFC
normalisation and trimming of the passphrase string, scrypt (arguments:
password bytes, salt, N, r, p, dkLen; the `maxmem` capacity bound passed
in the source does not affect the derived bytes and is omitted),
HKDF-SHA256 (ikm, salt, info, length), the Ed25519 public key of a secret
key, and raw BLAKE3. -/
structure KdfPrims where
  nfc : String → String
  trim : String → String
  scrypt : Bytes → Bytes → Nat → Nat → Nat → Nat → Bytes
  hkdfSha256 : Bytes → Bytes → Bytes → Nat → Bytes
  ed25519Pub : Bytes → Bytes
  blake3 : Bytes → Bytes

/-- The derived key bundle (the closures `sign`/`verify` of the source
bundle are determined by `sigKey`/`pubKey` and are not separate data). -/
structure KeyBundle where
  sigKey : Bytes
  pubKey : Bytes
  encKey : Bytes
  dbName : String
deriving DecidableEq, Repr

/-- `CRYPTO_VERSION` of `VERSION_CONFIG`. -/
def CRYPTO_VERSION : Nat := 6

/-- `SALT_BASE` of `VERSION_CONFIG` (a template over `CRYPTO_VERSION`). -/
def SALT_BASE : String := "hashfs-v" ++ toString CRYPTO_VERSION ++ "-2025"

/-- `DB_SUFFIX` of `VERSION_CONFIG`. -/
def DB_SUFFIX : String := "-hashfs-v" ++ toString CRYPTO_VERSION

/-- `MIN_PASSWORD_LENGTH` of `VERSION_CONFIG`. -/
def MIN_PASSWORD_LENGTH : Nat := 8

/-- The scrypt work factor of the source: `1 << 17`. -/
def SCRYPT_N : Nat := 1 <<< 17

/-- `cryptoUtils.deriveKeys(pwd)` as the source computes it: normalise to
NFC, trim, UTF-8 encode; reject short passphrases with the source's
distinct message; scrypt over the versioned-label salt; HKDF-SHA256
subkeys with infos "signing" and "encryption"; the vault/database name
from the BLAKE3 of the public key. -/
def deriveKeys (K : KdfPrims) (pwd : String) : Except String KeyBundle :=
  let pwdBytes := utf8Encode (K.trim (K.nfc pwd))
  if pwdBytes.length < MIN_PASSWORD_LENGTH then .error "Password too short"
  else
    let salt := utf8Encode SALT_BASE
    let masterKey := K.scrypt pwdBytes salt SCRYPT_N 8 1 32
    let sigKey := K.hkdfSha256 masterKey salt (utf8Encode "signing") 32
    let encKey := K.hkdfSha256 masterKey salt (utf8Encode "encryption") 32
    let pubKey := K.ed25519Pub sigKey
    .ok { sigKey := sigKey, pubKey := pubKey, encKey := encKey,
          dbName := bytesToHex ((K.blake3 pubKey).take 16) ++ DB_SUFFIX }

/-- Key derivation as the specification describes it, for comparison with
`deriveKeys`: canonical composition, outer-whitespace trim, byte encoding,
distinct rejection below 8 bytes; scrypt with N = 2^17, r = 8, p = 1,
dkLen = 32 over the fixed versioned-label salt; HKDF-SHA256 subkeys with
the same salt and info strings "signing" and "encryption"; vault id the
hex of the first 16 bytes of BLAKE3 of the Ed25519 public key with a
crypto-version suffix. -/
def deriveKeysSpec (K : KdfPrims) (pwd : String) : Except String KeyBundle :=
  let pwdBytes := utf8Encode (K.trim (K.nfc pwd))
  if pwdBytes.length < 8 then .error "Password too short"
  else
    let salt := utf8Encode "hashfs-v6-2025"
    let masterKey := K.scrypt pwdBytes salt (2 ^ 17) 8 1 32
    let sigKey := K.hkdfSha256 masterKey salt (utf8Encode "signing") 32
    let encKey := K.hkdfSha256 masterKey salt (utf8Encode "encryption") 32
    let pubKey := K.ed25519Pub sigKey
    .ok { sigKey := sigKey, pubKey := pubKey, encKey := encKey,
          dbName := bytesToHex ((K.blake3 pubKey).take 16) ++ "-hashfs-v6" }

/-- Right-pad a byte string with zeros to length 32 (the zero fill of a
fresh `Uint8Array` region not covered by a `set`). -/
def pad32 (b : Bytes) : Bytes :=
  b ++ List.replicate (32 - b.length) 0

/-- The numeric coercion JS applies when a string is fed to the
`Uint8Array` constructor (`new Uint8Array(str)` iterates the characters;
`ToNumber` of a single-character string is its digit value for "0".."9"
and `NaN`, hence byte 0, for any other character of a hex string). -/
def jsStringToUint8 (s : String) : Bytes :=
  s.data.map (fun c => if 48 ≤ c.toNat ∧ c.toNat ≤ 57 then c.toNat - 48 else 0)

/-- The 8 bytes `DataView.setBigInt64(0, t, true)` writes: the
little-endian encoding of the timestamp. -/
def leBytes64 (t : Nat) : Bytes :=
  [t % 256, t / 256 % 256, t / 256 ^ 2 % 256, t / 256 ^ 3 % 256,
   t / 256 ^ 4 % 256, t / 256 ^ 5 % 256, t / 256 ^ 6 % 256, t / 256 ^ 7 % 256]

/-- Big-endian 8-byte encoding of a timestamp (what the specification
asserts the entropy starts with). -/
def beBytes64 (t : Nat) : Bytes :=
  (leBytes64 t).reverse

/-- The `{base, session}` fingerprint pair. -/
structure Fingerprint where
  base : String
  session : String
deriving DecidableEq, Repr

/-- The fingerprint computation of `handlers.init`: a 64-byte buffer
holding the first 32 UTF-8 bytes of the database name and the first 32
bytes of the encryption key (zero padded if shorter) is hashed to `base`;
the 40-byte entropy is the little-endian millisecond epoch followed by 32
random bytes; the session input concatenates `new Uint8Array(baseHash)` —
the JS numeric coercion of the hex string, one entry per character — with
the entropy (the `set` calls amount to this concatenation because the
coerced array has exactly `baseHash.length` entries).  `rand` stands for
the 32 bytes `crypto.getRandomValues` supplies. -/
def initFingerprint (P : Prims) (dbName : String) (encKey : Bytes) (now : Nat) (rand : Bytes) :
    Fingerprint :=
  let vaultData := pad32 ((utf8Encode dbName).take 32) ++ pad32 (encKey.take 32)
  let base := P.hash vaultData
  let entropy := leBytes64 now ++ rand
  { base := base, session := P.hash (jsStringToUint8 base ++ entropy) }

/-- The fingerprint pair as the specification describes it, for comparison
with `initFingerprint`: `base = BLAKE3(dbName_bytes[0..32] ++
enc_key[0..32])` and `session = BLAKE3(base ++ entropy)` with entropy the
8-byte big-endian millisecond epoch followed by 32 random bytes. -/
def initFingerprintClaim (P : Prims) (dbName : String) (encKey : Bytes) (now : Nat) (rand : Bytes) :
    Fingerprint :=
  let base := P.hash ((utf8Encode dbName).take 32 ++ encKey.take 32)
  { base := base, session := P.hash (utf8Encode base ++ (beBytes64 now ++ rand)) }

/-- An executable exemplar hash: injective rendering of the input bytes.
Used to instantiate the symbolic primitives in witnesses and
counterexamples. -/
def exHash (bs : Bytes) : String :=
  "H" ++ toString bs

/-- Executable exemplar primitives: signing tags the message, verification
checks the tag, the codec is the identity. -/
def exPrims : Prims :=
  { hash := exHash, sign := fun h => "S" ++ h,
    verify := fun h sg => sg == "S" ++ h,
    deflate := fun b => b, inflate := fun b => some b,
    jsonEnc := fun _ => "chain" }

/-- The chain hash as the specification words it: BLAKE3 of the literal
string "HashFS-Chain-v6" followed by each version's plaintext hash as raw
bytes, in order; BLAKE3 of the empty input for an empty list. -/
def specChainHashClaim (P : Prims) (versions : List VersionEntry) : String :=
  if versions.isEmpty then P.hash []
  else P.hash (utf8Encode "HashFS-Chain-v6" ++ (versions.map (fun v => hexToBytes v.hash)).flatten)

/-- Fixture: a single version entry over content byte 7, stored at "k1". -/
def exEntry1 : VersionEntry :=
  { version := 1, hash := exHash [7], sig := "S" ++ exHash [7], key := "k1", size := 1, ts := 0 }

/-- Fixture: a one-entry chain. -/
def exChain1 : Chain :=
  { versions := [exEntry1], pruned := { count := 0, oldestKept := 1 },
    chainHash := none, chainSig := none }

/-- Fixture: the file record of "a.txt" pointing at `exChain1`. -/
def exMeta1 : FileMeta :=
  { mime := "text/markdown", chainId := "cid", headVersion := 1, lastModified := 0,
    lastSize := 1, lastCompressedSize := 1, activeKey := some "k1" }

/-- Fixture: the honest chain-blob signature for `exChain1`. -/
def exSig1 : String := exPrims.sign (chainSigPayloadHash exPrims exChain1)

/-- Fixture: an honest one-file state. -/
def exStateHonest : State :=
  { auth := true, filesMeta := [("a.txt", exMeta1)], filesStore := [("k1", .enc [7])],
    chainsStore := [("cid", .enc exChain1 (some exSig1))], metaStore := none }

/-- Fixture: `exStateHonest` with the chain blob's signature field removed. -/
def exStateNoSig : State :=
  { exStateHonest with chainsStore := [("cid", .enc exChain1 none)] }

/-- Fixture: `exStateHonest` with the chain ciphertext altered. -/
def exStateChainTampered : State :=
  { exStateHonest with chainsStore := [("cid", .tampered)] }

/-- Fixture: `exStateHonest` with the content ciphertext altered. -/
def exStateBlobTampered : State :=
  { exStateHonest with filesStore := [("k1", .tampered)] }

/-- Fixture: entries for a two-version chain (recovery scenario). -/
def exEntryA : VersionEntry :=
  { version := 1, hash := exHash [7], sig := "S" ++ exHash [7], key := "kA", size := 1, ts := 0 }

/-- Fixture: head entry of the two-version chain, blob at "kB". -/
def exEntryB : VersionEntry :=
  { version := 2, hash := exHash [8], sig := "S" ++ exHash [8], key := "kB", size := 1, ts := 1 }

/-- Fixture: the two-version chain. -/
def exChain2 : Chain :=
  { versions := [exEntryA, exEntryB], pruned := { count := 0, oldestKept := 1 },
    chainHash := none, chainSig := none }

/-- Fixture: the file record of "a.txt" pointing at `exChain2`, head 2. -/
def exMeta2 : FileMeta :=
  { mime := "text/markdown", chainId := "cid", headVersion := 2, lastModified := 1,
    lastSize := 1, lastCompressedSize := 1, activeKey := some "kB" }

/-- Fixture: state where the head blob "kB" is missing and only the
version-1 blob survives. -/
def exStateHeadMissing : State :=
  { auth := true, filesMeta := [("a.txt", exMeta2)], filesStore := [("kA", .enc [7])],
    chainsStore := [("cid", .enc exChain2 (some (exPrims.sign (chainSigPayloadHash exPrims exChain2))))],
    metaStore := none }

/-- Fixture: a record with a non-default MIME and no active key. -/
def exMetaNoKey : FileMeta :=
  { mime := "image/png", chainId := "cid", headVersion := 0, lastModified := 0,
    lastSize := 0, lastCompressedSize := 0, activeKey := none }

/-- Fixture: state holding only the keyless "b.png" record. -/
def exStateNoKey : State :=
  { auth := true, filesMeta := [("b.png", exMetaNoKey)], filesStore := [],
    chainsStore := [], metaStore := none }

/-- Fixture: an authenticated empty vault. -/
def exStateFresh : State :=
  { auth := true, filesMeta := [], filesStore := [], chainsStore := [], metaStore := none }

/-- Fixture: a version entry whose content hash hex string is "aa". -/
def exEntryAA : VersionEntry :=
  { version := 1, hash := "aa", sig := "s", key := "k", size := 1, ts := 0 }

/-- Fixture: a database name of the shape `deriveKeys` produces (32 hex
characters and the version suffix). -/
def exDbName : String := "0123456789abcdef0123456789abcdef-hashfs-v6"

/-- Fixture: a 32-byte all-zero key / random block. -/
def exZeros32 : Bytes := List.replicate 32 0

end HashFS

deriving instance DecidableEq for Except

namespace HashFS

/-! Helper lemmas about the association-list primitives and the chain
manager, shared by the claim theorems. -/

theorem alookup_aput_self {α : Type} (l : List (String × α)) (k : String) (v : α) :
    alookup (aput l k v) k = some v := by
  induction l with
  | nil => simp [aput, alookup]
  | cons p rest ih =>
    by_cases h : p.1 = k <;> simp [aput, alookup, h, ih]

theorem alookup_aput_ne {α : Type} (l : List (String × α)) (k k' : String) (v : α)
    (h : k' ≠ k) : alookup (aput l k v) k' = alookup l k' := by
  have hkk : ¬ k = k' := fun hh => h hh.symm
  induction l with
  | nil => simp only [aput, alookup, if_neg hkk]
  | cons p rest ih =>
    by_cases hp : p.1 = k
    · have hp' : ¬ p.1 = k' := by rw [hp]; exact hkk
      simp only [aput, if_pos hp, alookup, if_neg hkk, if_neg hp']
    · simp only [aput, if_neg hp, alookup, ih]

theorem alookup_aerase_self {α : Type} (l : List (String × α)) (k : String) :
    alookup (aerase l k) k = none := by
  induction l with
  | nil => simp [aerase, alookup]
  | cons p rest ih =>
    by_cases h : p.1 = k <;> simp [aerase, alookup, h, ih]

theorem alookup_aerase_ne {α : Type} (l : List (String × α)) (k k' : String)
    (h : k' ≠ k) : alookup (aerase l k) k' = alookup l k' := by
  induction l with
  | nil => simp [aerase, alookup]
  | cons p rest ih =>
    by_cases hp : p.1 = k
    · have hp' : ¬ p.1 = k' := by rw [hp]; exact fun hh => h hh.symm
      simp only [aerase, if_pos hp, alookup, if_neg hp', ih]
    · simp only [aerase, if_neg hp, alookup, ih]

theorem getChainStored_honest (P : Prims) (c : Chain)
    (HVer : ∀ h, P.verify h (P.sign h) = true)
    (HInf : ∀ b, P.inflate (P.deflate b) = some b) :
    getChainStored P (some (.enc c (some (P.sign (chainSigPayloadHash P c))))) = c := by
  simp only [getChainStored]
  rw [HInf]
  simp [HVer]

theorem getChain_saveChain_self (P : Prims) (st : State) (chainId : String) (c : Chain)
    (HVer : ∀ h, P.verify h (P.sign h) = true)
    (HInf : ∀ b, P.inflate (P.deflate b) = some b) :
    getChain P (saveChain P st chainId c) chainId = c := by
  unfold getChain saveChain
  rw [show (alookup (aput st.chainsStore chainId (.enc c (some (P.sign (chainSigPayloadHash P c))))) chainId) = some (.enc c (some (P.sign (chainSigPayloadHash P c)))) from alookup_aput_self ..]
  exact getChainStored_honest P c HVer HInf

theorem getChainStored_tampered (P : Prims) :
    getChainStored P (some .tampered) = emptyChain := rfl

theorem getChainStored_noSig (P : Prims) (c : Chain) :
    getChainStored P (some (.enc c none)) = emptyChain := by
  simp only [getChainStored]
  cases hh : P.inflate (P.deflate (utf8Encode (P.jsonEnc c))) <;> simp

/-- When the chain manager degrades to the empty chain, a load of a file
that still has an active key fails with the version-not-found error. -/
theorem load_of_emptyChain (P : Prims) (st : State) (f : String) (meta : FileMeta)
    (v : Option Nat) (ak : String)
    (hauth : st.auth = true) (hm : alookup st.filesMeta f = some meta)
    (hak : meta.activeKey = some ak)
    (hch : getChain P st meta.chainId = emptyChain) :
    load P st f v = (st, .error (.versionNotFound v)) := by
  unfold load
  rw [hauth]
  simp only [hm, hak, hch, emptyChain]
  cases v <;> simp

/-- C2 (amended): tampering never lets a load succeed, but the error class
differs from the claim for chain tampering.  Altering the chain ciphertext
(first conjunct) or stripping the chain blob's signature (second) makes
`getChain` swallow the verification failure and return the empty chain, so
the load fails with the version-not-found error — not `ChainCorrupt`.
Altering a content ciphertext makes the load fail with the AES-GCM
decryption error (third conjunct). -/
theorem load_tamper_never_succeeds (P : Prims) (st : State) (f : String) (meta : FileMeta)
    (v : Option Nat) (ak : String)
    (hauth : st.auth = true) (hm : alookup st.filesMeta f = some meta)
    (hak : meta.activeKey = some ak) :
    (alookup st.chainsStore meta.chainId = some .tampered →
      load P st f v = (st, .error (.versionNotFound v))) ∧
    (∀ c : Chain, alookup st.chainsStore meta.chainId = some (.enc c none) →
      load P st f v = (st, .error (.versionNotFound v))) ∧
    (∀ (c : Chain) (target : VersionEntry),
      getChain P st meta.chainId = c →
      (match v with
        | none => c.versions.getLast?
        | some vn => c.versions.find? (fun e => e.version == vn)) = some target →
      alookup st.filesStore target.key = some .tampered →
      load P st f v = (st, .error .decryptFailure)) := by
  refine ⟨fun hch => ?_, fun c hch => ?_, fun c target hc htgt hblob => ?_⟩
  · exact load_of_emptyChain P st f meta v ak hauth hm hak
      (by rw [getChain, hch]; exact getChainStored_tampered P)
  · exact load_of_emptyChain P st f meta v ak hauth hm hak
      (by rw [getChain, hch]; exact getChainStored_noSig P c)
  · unfold load
    rw [hauth]
    simp only [hm, hak, hc]
    rw [htgt]
    simp [hblob, decryptBlob]

/-- C2 counterexample: with the chain blob's signature field removed, the
next load fails with the version-not-found error, not a `ChainCorrupt`
integrity error as the claim states. -/
theorem load_noSig_versionNotFound :
    load exPrims exStateNoSig "a.txt" none = (exStateNoSig, .error (.versionNotFound none)) := by
  decide

/-- C2 witness: the amended theorem applied to the tampered-chain and
tampered-blob fixture states. -/
theorem load_tamper_never_succeeds_witness :
    load exPrims exStateChainTampered "a.txt" none
      = (exStateChainTampered, .error (.versionNotFound none)) ∧
    load exPrims exStateBlobTampered "a.txt" (some 1)
      = (exStateBlobTampered, .error .decryptFailure) :=
  ⟨(load_tamper_never_succeeds exPrims exStateChainTampered "a.txt" exMeta1 none "k1"
      (by decide) (by decide) (by decide)).1 (by decide),
   (load_tamper_never_succeeds exPrims exStateBlobTampered "a.txt" exMeta1 (some 1) "k1"
      (by decide) (by decide) (by decide)).2.2 exChain1 exEntry1 (by decide) (by decide) (by decide)⟩

theorem tryRecover_skip (P : Prims) (st : State) (skipped rest : List VersionEntry)
    (hskip : ∀ e ∈ skipped, e.key = "" ∨ alookup st.filesStore e.key = none) :
    tryRecover P st (skipped ++ rest) = tryRecover P st rest := by
  induction skipped with
  | nil => rfl
  | cons e es ih =>
    have htail : ∀ x ∈ es, x.key = "" ∨ alookup st.filesStore x.key = none :=
      fun x hx => hskip x (by simp [hx])
    rcases hskip e (by simp) with hk | hb
    · simpa [tryRecover, hk] using ih htail
    · by_cases hk : e.key = ""
      · simpa [tryRecover, hk] using ih htail
      · simpa [tryRecover, hk, hb] using ih htail

theorem tryRecover_hit (P : Prims) (st : State) (tv : VersionEntry) (rest : List VersionEntry)
    (comp content : Bytes) (hk : tv.key ≠ "")
    (hb : alookup st.filesStore tv.key = some (.enc comp))
    (hinf : P.inflate comp = some content) :
    tryRecover P st (tv :: rest) = some (tv, content) := by
  simp [tryRecover, hk, hb, decryptBlob, hinf]

theorem tryRecover_none (P : Prims) (st : State) (l : List VersionEntry)
    (hall : ∀ e ∈ l, e.key = "" ∨ alookup st.filesStore e.key = none) :
    tryRecover P st l = none := by
  simpa using tryRecover_skip P st l [] hall

/-- C3: when the head version's blob is missing and the latest is
requested, the engine walks the chain backwards from the entry before the
head.  First conjunct: the first earlier entry whose blob survives is
decrypted and inflated, the record's `headVersion`, `activeKey` and
`lastSize` move to that entry, the metadata index is rewritten, and the
bytes come back flagged recovered.  Second conjunct: when no earlier
entry's blob survives, the record is deleted, the index rewritten, and the
load fails with the corruption error. -/
theorem load_missing_head_recovery (P : Prims) (st : State) (f : String) (meta : FileMeta)
    (c : Chain) (ak : String) (init : List VersionEntry) (last : VersionEntry)
    (hauth : st.auth = true) (hm : alookup st.filesMeta f = some meta)
    (hak : meta.activeKey = some ak)
    (hc : getChain P st meta.chainId = c)
    (hvs : c.versions = init ++ [last])
    (hmiss : alookup st.filesStore last.key = none) :
    (∀ (skipped : List VersionEntry) (tv : VersionEntry) (rest : List VersionEntry)
       (comp content : Bytes),
      meta.chainId ≠ "" →
      init.reverse = skipped ++ tv :: rest →
      (∀ e ∈ skipped, e.key = "" ∨ alookup st.filesStore e.key = none) →
      tv.key ≠ "" →
      alookup st.filesStore tv.key = some (.enc comp) →
      P.inflate comp = some content →
      load P st f none =
        (persistMeta { st with filesMeta := aput st.filesMeta f { meta with headVersion := tv.version, activeKey := some tv.key, lastSize := content.length } },
         .ok (.recovered content tv.version meta.mime tv.version))) ∧
    ((∀ e ∈ init, e.key = "" ∨ alookup st.filesStore e.key = none) →
      load P st f none =
        (persistMeta { st with filesMeta := aerase st.filesMeta f },
         .error (.fileCorrupted f none))) := by
  have hlast : c.versions.getLast? = some last := by
    rw [hvs]; simp
  have hdrop : c.versions.dropLast = init := by
    rw [hvs]; simp
  constructor
  · intro skipped tv rest comp content hcid hsplit hskip hk hb hinf
    have hlen : 2 ≤ c.versions.length := by
      have : init ≠ [] := by
        intro hnil
        rw [hnil] at hsplit
        simp at hsplit
      rw [hvs]
      rcases init with _ | ⟨x, xs⟩
      · exact absurd rfl this
      · simp
    have hrec : recoverFromPreviousVersion P st meta c =
        some ({ meta with headVersion := tv.version, activeKey := some tv.key, lastSize := content.length }, content, tv.version) := by
      unfold recoverFromPreviousVersion
      rw [if_neg (by push_neg; exact ⟨hcid, by omega⟩)]
      rw [hdrop, hsplit, tryRecover_skip P st skipped (tv :: rest) hskip,
        tryRecover_hit P st tv rest comp content hk hb hinf]
    unfold load
    rw [hauth]
    simp only [hm, hak, hc, hlast, hmiss, hrec]
    simp
  · intro hall
    have hrec : recoverFromPreviousVersion P st meta c = none := by
      unfold recoverFromPreviousVersion
      by_cases hguard : meta.chainId = "" ∨ c.versions.length < 2
      · rw [if_pos hguard]
      · rw [if_neg hguard, hdrop,
          tryRecover_none P st init.reverse (fun e he => hall e (List.mem_reverse.mp he))]
    unfold load
    rw [hauth]
    simp only [hm, hak, hc, hlast, hmiss, hrec]
    simp

/-- C3 witness: in the fixture state whose head blob "kB" is missing, the
latest-load recovers version 1 from blob "kA", updates and persists the
record, and flags the result recovered. -/
theorem load_missing_head_recovery_witness :
    load exPrims exStateHeadMissing "a.txt" none =
      (persistMeta { exStateHeadMissing with filesMeta := aput exStateHeadMissing.filesMeta "a.txt" { exMeta2 with headVersion := 1, activeKey := some "kA", lastSize := 1 } },
       .ok (.recovered [7] 1 "text/markdown" 1)) :=
  (load_missing_head_recovery exPrims exStateHeadMissing "a.txt" exMeta2 exChain2 "kB"
      [exEntryA] exEntryB (by decide) (by decide) (by decide) (by decide) (by decide)
      (by decide)).1
    [] exEntryA [] [7] [7] (by decide) (by decide) (by decide) (by decide) (by decide) (by decide)

/-- C8 counterexample: a record for "b.png" exists with MIME "image/png"
and a null active key, yet load returns MIME "text/markdown", not the
record's MIME. -/
theorem load_keyless_ignores_record_mime :
    load exPrims exStateNoKey "b.png" none = (exStateNoKey, .ok (.empty [] "text/markdown")) ∧
    "text/markdown" ≠ "image/png" := by decide

/-- C8 (amended): a load of a filename whose record is absent or whose
active key is null returns empty bytes with the constant MIME
"text/markdown" — the record's own MIME is never consulted — and leaves
the state unchanged. -/
theorem load_absent_or_keyless (P : Prims) (st : State) (f : String) (v : Option Nat)
    (hauth : st.auth = true)
    (h : alookup st.filesMeta f = none ∨
         ∃ meta, alookup st.filesMeta f = some meta ∧ meta.activeKey = none) :
    load P st f v = (st, .ok (.empty [] "text/markdown")) := by
  unfold load
  rw [hauth]
  rcases h with h | ⟨meta, hm, hk⟩
  · simp [h]
  · simp [hm, hk]

/-- C8 witness: the amended theorem applied to the keyless fixture record
and to a state without any record. -/
theorem load_absent_or_keyless_witness :
    load exPrims exStateNoKey "b.png" (some 3) = (exStateNoKey, .ok (.empty [] "text/markdown")) ∧
    load exPrims exStateFresh "nofile" none = (exStateFresh, .ok (.empty [] "text/markdown")) :=
  ⟨load_absent_or_keyless exPrims exStateNoKey "b.png" (some 3) (by decide)
      (Or.inr ⟨exMetaNoKey, by decide, by decide⟩),
   load_absent_or_keyless exPrims exStateFresh "nofile" none (by decide) (Or.inl (by decide))⟩

/-- C9: deleting a filename that has no record in the metadata index
succeeds with the plain success flag and leaves the whole state (stores,
metadata, persisted index) untouched. -/
theorem delete_absent_noop (P : Prims) (st : State) (f : String)
    (hauth : st.auth = true) (h : alookup st.filesMeta f = none) :
    deleteFile P st f = (st, .ok true) := by
  unfold deleteFile
  rw [hauth]
  simp [h]

/-- C9 witness: deleting a missing file in the honest fixture state. -/
theorem delete_absent_noop_witness :
    deleteFile exPrims exStateHonest "missing.txt" = (exStateHonest, .ok true) :=
  delete_absent_noop exPrims exStateHonest "missing.txt" (by decide) (by decide)

/-- C10: renaming any existing filename onto itself fails with the
source's invalid-rename error and changes nothing, because the
target-exists guard rejects every new name already present in the index —
including the source name itself (second conjunct). -/
theorem rename_self_always_fails (st : State) (a : String) (meta : FileMeta)
    (_hauth : st.auth = true) (hm : alookup st.filesMeta a = some meta) :
    rename st a a = (st, .error .invalidRename) ∧
    (∀ oldName newName : String, (alookup st.filesMeta newName).isSome →
      rename st oldName newName = (st, .error .invalidRename)) := by
  have hgen : ∀ oldName newName : String, (alookup st.filesMeta newName).isSome →
      rename st oldName newName = (st, .error .invalidRename) := by
    intro oldName newName hNew
    unfold rename
    simp [hNew]
  exact ⟨hgen a a (by simp [hm]), hgen⟩

/-- C10 witness: renaming the fixture file onto itself fails and leaves
the state unchanged. -/
theorem rename_self_always_fails_witness :
    rename exStateHonest "a.txt" "a.txt" = (exStateHonest, .error .invalidRename) :=
  (rename_self_always_fails exStateHonest "a.txt" exMeta1 (by decide) (by decide)).1

theorem getLast?_drop_of_lt {α : Type} (l : List α) (n : Nat) (h : n < l.length) :
    (l.drop n).getLast? = l.getLast? := by
  conv_rhs => rw [← List.take_append_drop n l]
  rw [List.getLast?_append_of_ne_nil]
  intro hn
  have := congrArg List.length hn
  simp at this
  omega

theorem getChain_congr (P : Prims) (st st' : State) (cid : String)
    (h : st.chainsStore = st'.chainsStore) : getChain P st cid = getChain P st' cid := by
  unfold getChain; rw [h]

theorem saveState0_chainsStore (st : State) (f mime ck : String) (sz now : Nat) :
    (saveState0 st f mime ck sz now).chainsStore = st.chainsStore := by
  unfold saveState0; cases alookup st.filesMeta f <;> rfl

theorem saveState0_auth (st : State) (f mime ck : String) (sz now : Nat) :
    (saveState0 st f mime ck sz now).auth = st.auth := by
  unfold saveState0; cases alookup st.filesMeta f <;> rfl

theorem save_auth_true (P : Prims) (st : State) (f : String) (X : Bytes) (mime : String)
    (L : Nat) (ck k : String) (now : Nat) (hauth : st.auth = true) :
    save P st f X mime L ck k now =
      saveBody P (saveState0 st f mime ck X.length now) f X mime L k now
        (saveMeta0 st f mime ck X.length now) := by
  unfold save
  rw [hauth]
  simp

theorem saveCommit_snd (P : Prims) (st1 : State) (f : String) (X : Bytes) (mime : String)
    (L : Nat) (k : String) (now : Nat) (meta : FileMeta) :
    (saveCommit P st1 f X mime L k now meta).2 = .ok (.saved (meta.headVersion + 1)) := rfl

theorem saveCommit_filesMeta (P : Prims) (st1 : State) (f : String) (X : Bytes) (mime : String)
    (L : Nat) (k : String) (now : Nat) (meta : FileMeta) :
    (saveCommit P st1 f X mime L k now meta).1.filesMeta =
      aput st1.filesMeta f (savedMeta P meta mime X k now) := rfl

theorem saveCommit_metaStore (P : Prims) (st1 : State) (f : String) (X : Bytes) (mime : String)
    (L : Nat) (k : String) (now : Nat) (meta : FileMeta) :
    (saveCommit P st1 f X mime L k now meta).1.metaStore =
      some (aput st1.filesMeta f (savedMeta P meta mime X k now)) := rfl

theorem saveCommit_auth (P : Prims) (st1 : State) (f : String) (X : Bytes) (mime : String)
    (L : Nat) (k : String) (now : Nat) (meta : FileMeta) :
    (saveCommit P st1 f X mime L k now meta).1.auth = st1.auth := rfl

theorem saveCommit_chainsStore (P : Prims) (st1 : State) (f : String) (X : Bytes) (mime : String)
    (L : Nat) (k : String) (now : Nat) (meta : FileMeta) :
    (saveCommit P st1 f X mime L k now meta).1.chainsStore =
      aput st1.chainsStore meta.chainId
        (.enc (savedChain P (getChain P st1 meta.chainId) (savedEntry P meta X k now) L)
          (some (P.sign (chainSigPayloadHash P
            (savedChain P (getChain P st1 meta.chainId) (savedEntry P meta X k now) L))))) := rfl

theorem getChain_saveCommit (P : Prims) (st1 : State) (f : String) (X : Bytes) (mime : String)
    (L : Nat) (k : String) (now : Nat) (meta : FileMeta)
    (HVer : ∀ h, P.verify h (P.sign h) = true)
    (HInf : ∀ b, P.inflate (P.deflate b) = some b) :
    getChain P (saveCommit P st1 f X mime L k now meta).1 meta.chainId =
      savedChain P (getChain P st1 meta.chainId) (savedEntry P meta X k now) L := by
  unfold getChain
  rw [saveCommit_chainsStore, alookup_aput_self]
  exact getChainStored_honest P _ HVer HInf

theorem savedChain_getLast (P : Prims) (c2 : Chain) (entry : VersionEntry) (L : Nat)
    (hL : 1 ≤ L) : (savedChain P c2 entry L).versions.getLast? = some entry := by
  unfold savedChain
  rw [getLast?_drop_of_lt _ _ (by simp; omega)]
  simp

theorem savedChain_length_le (P : Prims) (c2 : Chain) (entry : VersionEntry) (L : Nat) :
    (savedChain P c2 entry L).versions.length ≤ L := by
  unfold savedChain
  simp
  omega

theorem savedChain_count (P : Prims) (c2 : Chain) (entry : VersionEntry) (L : Nat) :
    (savedChain P c2 entry L).pruned.count =
      c2.pruned.count + ((c2.versions.length + 1) - L) := by
  unfold savedChain
  simp

theorem savedChain_min (P : Prims) (c2 : Chain) (entry : VersionEntry) (L : Nat)
    (hL : 1 ≤ L)
    (hp : (c2.versions ++ [entry]).Pairwise (fun a b => a.version < b.version)) :
    ∃ e0, (savedChain P c2 entry L).versions.head? = some e0 ∧
      (savedChain P c2 entry L).pruned.oldestKept = e0.version ∧
      ∀ x ∈ (savedChain P c2 entry L).versions, e0.version ≤ x.version := by
  have hkept : (savedChain P c2 entry L).versions =
      (c2.versions ++ [entry]).drop ((c2.versions ++ [entry]).length - L) := rfl
  have hne : (savedChain P c2 entry L).versions ≠ [] := by
    rw [hkept]
    intro hnil
    have := congrArg List.length hnil
    simp at this
    omega
  obtain ⟨e0, tail, hcons⟩ := List.exists_cons_of_ne_nil hne
  have hpk : (savedChain P c2 entry L).versions.Pairwise (fun a b => a.version < b.version) := by
    rw [hkept]
    exact hp.sublist (List.drop_sublist _ _)
  refine ⟨e0, by rw [hcons]; rfl, ?_, ?_⟩
  · show (match (savedChain P c2 entry L).versions.head? with
      | some e => e.version
      | none => c2.pruned.oldestKept) = e0.version
    rw [hcons]
    rfl
  · intro x hx
    rw [hcons] at hx hpk
    rcases List.mem_cons.mp hx with hx | hx
    · rw [hx]
    · exact Nat.le_of_lt ((List.pairwise_cons.mp hpk).1 x hx)

theorem saveState0_of_some (st : State) (f mime ck : String) (sz now : Nat) (m : FileMeta)
    (hm : alookup st.filesMeta f = some m) : saveState0 st f mime ck sz now = st := by
  unfold saveState0; rw [hm]

theorem saveMeta0_of_some (st : State) (f mime ck : String) (sz now : Nat) (m : FileMeta)
    (hm : alookup st.filesMeta f = some m) : saveMeta0 st f mime ck sz now = m := by
  unfold saveMeta0; rw [hm]

/-- C4: a save of the same bytes issued after a committed save (default
version limit 15) returns unchanged; the chains store, the files store and
the record's head version are untouched.  With an equal MIME the state is
exactly the post-commit state; with a different MIME only the record's
MIME changes (other records untouched) and the metadata index is
rewritten. -/
theorem save_idempotent (P : Prims) (st : State) (f : String) (X : Bytes) (m1 m2 : String)
    (ck1 k1 ck2 k2 : String) (n1 n2 : Nat) (v : Nat)
    (HVer : ∀ h, P.verify h (P.sign h) = true)
    (HInf : ∀ b, P.inflate (P.deflate b) = some b)
    (h1 : (save P st f X m1 15 ck1 k1 n1).2 = .ok (.saved v)) :
    (save P (save P st f X m1 15 ck1 k1 n1).1 f X m2 15 ck2 k2 n2).2 = .ok .unchanged ∧
    (save P (save P st f X m1 15 ck1 k1 n1).1 f X m2 15 ck2 k2 n2).1.chainsStore =
      (save P st f X m1 15 ck1 k1 n1).1.chainsStore ∧
    (save P (save P st f X m1 15 ck1 k1 n1).1 f X m2 15 ck2 k2 n2).1.filesStore =
      (save P st f X m1 15 ck1 k1 n1).1.filesStore ∧
    (alookup (save P (save P st f X m1 15 ck1 k1 n1).1 f X m2 15 ck2 k2 n2).1.filesMeta f).map FileMeta.headVersion =
      (alookup (save P st f X m1 15 ck1 k1 n1).1.filesMeta f).map FileMeta.headVersion ∧
    (m2 = m1 → (save P (save P st f X m1 15 ck1 k1 n1).1 f X m2 15 ck2 k2 n2).1 =
      (save P st f X m1 15 ck1 k1 n1).1) ∧
    (m2 ≠ m1 → ∀ meta1, alookup (save P st f X m1 15 ck1 k1 n1).1.filesMeta f = some meta1 →
      alookup (save P (save P st f X m1 15 ck1 k1 n1).1 f X m2 15 ck2 k2 n2).1.filesMeta f =
        some { meta1 with mime := m2 } ∧
      (∀ g, g ≠ f → alookup (save P (save P st f X m1 15 ck1 k1 n1).1 f X m2 15 ck2 k2 n2).1.filesMeta g =
        alookup (save P st f X m1 15 ck1 k1 n1).1.filesMeta g) ∧
      (save P (save P st f X m1 15 ck1 k1 n1).1 f X m2 15 ck2 k2 n2).1.metaStore =
        some (save P (save P st f X m1 15 ck1 k1 n1).1 f X m2 15 ck2 k2 n2).1.filesMeta) := by
  cases hb : st.auth with
  | false =>
    exfalso
    unfold save at h1
    rw [hb] at h1
    simp at h1
  | true =>
    have hs1 : save P st f X m1 15 ck1 k1 n1 =
        saveBody P (saveState0 st f m1 ck1 X.length n1) f X m1 15 k1 n1
          (saveMeta0 st f m1 ck1 X.length n1) :=
      save_auth_true P st f X m1 15 ck1 k1 n1 hb
    have hcond : ¬ ((getChain P (saveState0 st f m1 ck1 X.length n1)
        (saveMeta0 st f m1 ck1 X.length n1).chainId).versions.getLast?).map
          (fun e => e.hash) = some (P.hash X) := by
      intro hyes
      rw [hs1] at h1
      unfold saveBody at h1
      rw [if_pos hyes] at h1
      by_cases hmm : (saveMeta0 st f m1 ck1 X.length n1).mime = m1
      · rw [if_pos hmm] at h1; exact absurd h1 (by simp)
      · rw [if_neg hmm] at h1; exact absurd h1 (by simp)
    have hs1' : save P st f X m1 15 ck1 k1 n1 =
        saveCommit P (saveState0 st f m1 ck1 X.length n1) f X m1 15 k1 n1
          (saveMeta0 st f m1 ck1 X.length n1) := by
      rw [hs1]
      unfold saveBody
      rw [if_neg hcond]
    have hauth1 : (save P st f X m1 15 ck1 k1 n1).1.auth = true := by
      rw [hs1', saveCommit_auth, saveState0_auth, hb]
    have hlook1 : alookup (save P st f X m1 15 ck1 k1 n1).1.filesMeta f =
        some (savedMeta P (saveMeta0 st f m1 ck1 X.length n1) m1 X k1 n1) := by
      rw [hs1', saveCommit_filesMeta, alookup_aput_self]
    have hgc1 : getChain P (save P st f X m1 15 ck1 k1 n1).1
        (saveMeta0 st f m1 ck1 X.length n1).chainId =
        savedChain P (getChain P (saveState0 st f m1 ck1 X.length n1)
          (saveMeta0 st f m1 ck1 X.length n1).chainId)
          (savedEntry P (saveMeta0 st f m1 ck1 X.length n1) X k1 n1) 15 := by
      rw [hs1']
      exact getChain_saveCommit P _ f X m1 15 k1 n1 _ HVer HInf
    have hs2 : save P (save P st f X m1 15 ck1 k1 n1).1 f X m2 15 ck2 k2 n2 =
        saveBody P (save P st f X m1 15 ck1 k1 n1).1 f X m2 15 k2 n2
          (savedMeta P (saveMeta0 st f m1 ck1 X.length n1) m1 X k1 n1) := by
      rw [save_auth_true P _ f X m2 15 ck2 k2 n2 hauth1,
        saveState0_of_some _ f m2 ck2 X.length n2 _ hlook1,
        saveMeta0_of_some _ f m2 ck2 X.length n2 _ hlook1]
    have hcond2 : ((getChain P (save P st f X m1 15 ck1 k1 n1).1
        (savedMeta P (saveMeta0 st f m1 ck1 X.length n1) m1 X k1 n1).chainId).versions.getLast?).map
          (fun e => e.hash) = some (P.hash X) := by
      have hcid : (savedMeta P (saveMeta0 st f m1 ck1 X.length n1) m1 X k1 n1).chainId =
          (saveMeta0 st f m1 ck1 X.length n1).chainId := rfl
      rw [hcid, hgc1, savedChain_getLast P _ _ 15 (by omega)]
      rfl
    have hs2' : save P (save P st f X m1 15 ck1 k1 n1).1 f X m2 15 ck2 k2 n2 =
        (if (savedMeta P (saveMeta0 st f m1 ck1 X.length n1) m1 X k1 n1).mime = m2 then
          ((save P st f X m1 15 ck1 k1 n1).1, .ok .unchanged)
        else
          (persistMeta { (save P st f X m1 15 ck1 k1 n1).1 with filesMeta := aput (save P st f X m1 15 ck1 k1 n1).1.filesMeta f { (savedMeta P (saveMeta0 st f m1 ck1 X.length n1) m1 X k1 n1) with mime := m2 } },
           .ok .unchanged)) := by
      rw [hs2]
      unfold saveBody
      rw [if_pos hcond2]
    have hmime1 : (savedMeta P (saveMeta0 st f m1 ck1 X.length n1) m1 X k1 n1).mime = m1 := rfl
    by_cases hm2 : (savedMeta P (saveMeta0 st f m1 ck1 X.length n1) m1 X k1 n1).mime = m2
    · rw [if_pos hm2] at hs2'
      refine ⟨by rw [hs2'], by rw [hs2'], by rw [hs2'], by rw [hs2'], fun _ => by rw [hs2'], ?_⟩
      intro hne _ _
      exact absurd (hmime1.symm.trans hm2).symm hne
    · rw [if_neg hm2] at hs2'
      refine ⟨by rw [hs2'], by rw [hs2']; rfl, by rw [hs2']; rfl, ?_, ?_, ?_⟩
      · rw [hs2']
        show (alookup (aput (save P st f X m1 15 ck1 k1 n1).1.filesMeta f _) f).map FileMeta.headVersion = _
        rw [alookup_aput_self, hlook1]
        rfl
      · intro heq
        exact absurd (hmime1.trans heq.symm) hm2
      · intro _ meta1 hmeta1
        have hm1eq : meta1 = savedMeta P (saveMeta0 st f m1 ck1 X.length n1) m1 X k1 n1 := by
          have := hlook1.symm.trans hmeta1
          exact (Option.some.injEq _ _).mp this.symm

        subst hm1eq
        refine ⟨?_, ?_, ?_⟩
        · rw [hs2']
          show alookup (aput (save P st f X m1 15 ck1 k1 n1).1.filesMeta f _) f = _
          rw [alookup_aput_self]
        · intro g hg
          rw [hs2']
          show alookup (aput (save P st f X m1 15 ck1 k1 n1).1.filesMeta f _) g = _
          rw [alookup_aput_ne _ _ _ _ hg]
        · rw [hs2']
          rfl

/-- C4 witness: the idempotence theorem applied to a double save of the
same byte on a fresh vault, the second with a different MIME. -/
theorem save_idempotent_witness :
    (save exPrims (save exPrims exStateFresh "a" [7] "text/markdown" 15 "c1" "k1" 1).1
      "a" [7] "text/plain" 15 "c2" "k2" 2).2 = .ok .unchanged :=
  (save_idempotent exPrims exStateFresh "a" [7] "text/markdown" "text/plain"
    "c1" "k1" "c2" "k2" 1 2 1 (fun h => by simp [exPrims]) (fun b => rfl) (by decide)).1

/-- C5 (amended to version limits of at least 1): after a committed save
with version limit L ≥ 1, the record's head version equals the version
number of the chain's last entry (both are the old head plus one), the
chain retains at most L entries, `pruned.count` grew by exactly the number
of dropped entries, and `pruned.oldestKept` is the smallest retained
version number. -/
theorem save_prune_invariants (P : Prims) (st : State) (f : String) (X : Bytes) (mime : String)
    (L : Nat) (ck k : String) (now : Nat) (meta : FileMeta) (c : Chain)
    (HVer : ∀ h, P.verify h (P.sign h) = true)
    (HInf : ∀ b, P.inflate (P.deflate b) = some b)
    (hauth : st.auth = true)
    (hmeta : saveMeta0 st f mime ck X.length now = meta)
    (hc : getChain P st meta.chainId = c)
    (hnot : ¬ (c.versions.getLast?).map (fun e => e.hash) = some (P.hash X))
    (hL : 1 ≤ L)
    (hasc : c.versions.Pairwise (fun a b => a.version < b.version))
    (hle : ∀ e ∈ c.versions, e.version ≤ meta.headVersion) :
    (save P st f X mime L ck k now).2 = .ok (.saved (meta.headVersion + 1)) ∧
    (alookup (save P st f X mime L ck k now).1.filesMeta f).map FileMeta.headVersion =
      some (meta.headVersion + 1) ∧
    ∃ c', getChain P (save P st f X mime L ck k now).1 meta.chainId = c' ∧
      (c'.versions.getLast?).map VersionEntry.version = some (meta.headVersion + 1) ∧
      c'.versions.length ≤ L ∧
      c'.pruned.count = c.pruned.count + ((c.versions.length + 1) - L) ∧
      ∃ e0, c'.versions.head? = some e0 ∧ c'.pruned.oldestKept = e0.version ∧
        ∀ x ∈ c'.versions, e0.version ≤ x.version := by
  have hgcA : getChain P (saveState0 st f mime ck X.length now) meta.chainId = c := by
    rw [getChain_congr P _ st meta.chainId (saveState0_chainsStore ..), hc]
  have hsave : save P st f X mime L ck k now =
      saveCommit P (saveState0 st f mime ck X.length now) f X mime L k now meta := by
    rw [save_auth_true P st f X mime L ck k now hauth, hmeta]
    unfold saveBody
    rw [hgcA, if_neg hnot]
  have hentry : savedEntry P meta X k now =
      { version := meta.headVersion + 1, hash := P.hash X, sig := P.sign (P.hash X),
        key := k, size := X.length, ts := now } := rfl
  have hp : (c.versions ++ [savedEntry P meta X k now]).Pairwise
      (fun a b => a.version < b.version) := by
    rw [List.pairwise_append]
    refine ⟨hasc, List.pairwise_singleton _ _, ?_⟩
    intro a ha b hb
    rw [List.mem_singleton.mp hb, hentry]
    show a.version < meta.headVersion + 1
    have := hle a ha
    omega
  refine ⟨?_, ?_, ?_⟩
  · rw [hsave, saveCommit_snd]
  · rw [hsave, saveCommit_filesMeta, alookup_aput_self]
    rfl
  · refine ⟨savedChain P c (savedEntry P meta X k now) L, ?_, ?_, ?_, ?_, ?_⟩
    · rw [hsave, getChain_saveCommit P _ f X mime L k now meta HVer HInf, hgcA]
    · rw [savedChain_getLast P c _ L hL, hentry]
      rfl
    · exact savedChain_length_le P c _ L
    · exact savedChain_count P c _ L
    · exact savedChain_min P c _ L hL hp

/-- C5 counterexample: `versionLimit: 0` is accepted (JS destructuring
defaults only replace `undefined`), the save succeeds as version 1, yet
the stored chain ends up with no entries at all while the record's head
version is 1 — so the claimed head/last-entry agreement fails. -/
theorem save_limit_zero_breaks_invariant :
    (save exPrims exStateFresh "p" [1] "text/markdown" 0 "cid" "k1" 100).2 = .ok (.saved 1) ∧
    (getChain exPrims (save exPrims exStateFresh "p" [1] "text/markdown" 0 "cid" "k1" 100).1 "cid").versions = [] ∧
    (alookup (save exPrims exStateFresh "p" [1] "text/markdown" 0 "cid" "k1" 100).1.filesMeta "p").map FileMeta.headVersion = some 1 := by
  decide

/-- C5 witness: saving new content over the honest one-version fixture
with limit 1 commits version 2, prunes the old entry, and the amended
invariants hold. -/
theorem save_prune_invariants_witness :
    (save exPrims exStateHonest "a.txt" [8] "text/markdown" 1 "ck" "k2" 5).2 = .ok (.saved 2) ∧
    (alookup (save exPrims exStateHonest "a.txt" [8] "text/markdown" 1 "ck" "k2" 5).1.filesMeta "a.txt").map FileMeta.headVersion = some 2 :=
  ⟨(save_prune_invariants exPrims exStateHonest "a.txt" [8] "text/markdown" 1 "ck" "k2" 5
      exMeta1 exChain1 (fun h => by simp [exPrims]) (fun b => rfl) (by decide) (by decide)
      (by decide) (by decide) (by decide) (by decide) (by decide)).1,
   (save_prune_invariants exPrims exStateHonest "a.txt" [8] "text/markdown" 1 "ck" "k2" 5
      exMeta1 exChain1 (fun h => by simp [exPrims]) (fun b => rfl) (by decide) (by decide)
      (by decide) (by decide) (by decide) (by decide) (by decide)).2.1⟩

/-- C1: the chain hash the code computes carries no domain separator.  At
a one-entry chain whose version hash is "aa" it equals the hash of the
two-character text "aa", and differs from the domain-separated binary
concatenation prefixed by "HashFS-Chain-v6" that the claim (and the
repository README) describe; only the empty-list case agrees with the
claim. -/
theorem computeChainHash_divergence :
    computeChainHash exPrims [exEntryAA] = exPrims.hash (utf8Encode "aa") ∧
    computeChainHash exPrims [exEntryAA] ≠ specChainHashClaim exPrims [exEntryAA] ∧
    computeChainHash exPrims [] = exPrims.hash [] := by decide

/-- C6: the key derivation of the code coincides, for every choice of
primitives and every passphrase, with the specification's description:
NFC-normalise, trim, UTF-8 encode, reject below 8 bytes with the distinct
short-passphrase error; scrypt with N = 2^17, r = 8, p = 1, dkLen = 32
over the fixed versioned-label salt "hashfs-v6-2025"; HKDF-SHA256 subkeys
with the same salt and infos "signing" and "encryption"; vault id the hex
of the first 16 bytes of BLAKE3 of the Ed25519 public key with the
crypto-version suffix "-hashfs-v6". -/
theorem deriveKeys_matches_spec (K : KdfPrims) (pwd : String) :
    deriveKeys K pwd = deriveKeysSpec K pwd := rfl

/-- C7 (amended): the vault fingerprint base is BLAKE3 of the first 32
bytes of the database name followed by the 32-byte encryption key, exactly
as claimed; the session fingerprint, however, is BLAKE3 of the JS numeric
coercion of the base hex string (digit characters keep their value, every
other character contributes byte 0) followed by the 40-byte entropy whose
timestamp is little-endian. -/
theorem initFingerprint_characterisation (P : Prims) (dbName : String) (encKey : Bytes)
    (now : Nat) (rand : Bytes)
    (hdb : 32 ≤ (utf8Encode dbName).length) (henc : encKey.length = 32) :
    (initFingerprint P dbName encKey now rand).base =
      P.hash ((utf8Encode dbName).take 32 ++ encKey) ∧
    (initFingerprint P dbName encKey now rand).session =
      P.hash (jsStringToUint8 (initFingerprint P dbName encKey now rand).base ++
        (leBytes64 now ++ rand)) := by
  constructor
  · have h1 : pad32 ((utf8Encode dbName).take 32) = (utf8Encode dbName).take 32 := by
      unfold pad32
      rw [List.length_take, Nat.min_eq_left hdb]
      simp
    have h2 : pad32 (encKey.take 32) = encKey := by
      unfold pad32
      rw [List.take_of_length_le (by omega), henc]
      simp
    unfold initFingerprint
    rw [h1, h2]
  · rfl

set_option maxRecDepth 40000 in
/-- C7 counterexample: at a concrete database name, key, timestamp 1 and
zero randomness, the base fingerprints of the code and of the claim agree
but the session fingerprints differ: the code writes the timestamp
little-endian and coerces the base hex string character-by-character
instead of concatenating the base's bytes. -/
theorem initFingerprint_session_diverges :
    (initFingerprint exPrims exDbName exZeros32 1 exZeros32).base =
      (initFingerprintClaim exPrims exDbName exZeros32 1 exZeros32).base ∧
    (initFingerprint exPrims exDbName exZeros32 1 exZeros32).session ≠
      (initFingerprintClaim exPrims exDbName exZeros32 1 exZeros32).session := by decide

set_option maxRecDepth 40000 in
/-- C7 witness: the amended characterisation applied to the concrete
fixture inputs. -/
theorem initFingerprint_characterisation_witness :
    (initFingerprint exPrims exDbName exZeros32 1 exZeros32).base =
      exPrims.hash ((utf8Encode exDbName).take 32 ++ exZeros32) ∧
    (initFingerprint exPrims exDbName exZeros32 1 exZeros32).session =
      exPrims.hash (jsStringToUint8 (initFingerprint exPrims exDbName exZeros32 1 exZeros32).base ++
        (leBytes64 1 ++ exZeros32)) :=
  initFingerprint_characterisation exPrims exDbName exZeros32 1 exZeros32
    (by decide) (by decide)

end HashFS
